import Mathlib

/-!
Verification of `scripts/clean-claude-history.py`: a utility that trims the
per-project `history` arrays inside a JSON configuration file, optionally
writing a backup first, and a read-only size checker.

The JSON document manipulated by the script is modelled by the `Json`
inductive below; JSON objects are association lists of string keys
(Python `dict` insertion order is preserved, so a list is faithful).
The Python dynamic operations used by the script (`dict.get`, `len`,
suffix slicing `x[-m:]`, `dict` item assignment) are embedded as
`Option`-valued or total functions; a `none` result marks a point where
the Python program would raise an uncaught exception.
-/

set_option autoImplicit false

namespace CleanClaudeHistory

/-- JSON values, as produced by Python `json.load`. Objects keep field
order (Python dicts preserve insertion order). -/
inductive Json where
  | null
  | bool (b : Bool)
  | num (n : Int)
  | str (s : String)
  | arr (elems : List Json)
  | obj (fields : List (String × Json))

/-- Python `dict.get(key)` on an association list: first binding wins
(a dict produced by `json.load` has no duplicate keys). -/
def lookupField : List (String × Json) → String → Option Json
  | [], _ => none
  | (k, v) :: rest, key => if k = key then some v else lookupField rest key

/-- Python `d[key] = v`: replace the binding in place if the key exists
(keeping its position), otherwise append a new binding at the end. -/
def setField : List (String × Json) → String → Json → List (String × Json)
  | [], key, v => [(key, v)]
  | (k, w) :: rest, key, v =>
      if k = key then (key, v) :: rest else (k, w) :: setField rest key v

/-- `dict.get(key, default)` lifted to a `Json` value: `none` models the
`AttributeError` Python raises when `.get` is called on a non-dict. -/
def pyGetD (j : Json) (key : String) (default : Json) : Option Json :=
  match j with
  | .obj fields => some ((lookupField fields key).getD default)
  | _ => none

/-- Python `len` on a JSON value: defined for lists, strings and dicts,
`none` (a `TypeError`) otherwise. -/
def pyLen : Json → Option Nat
  | .arr xs => some xs.length
  | .str s => some s.length
  | .obj fs => some fs.length
  | _ => none

/-- The Python suffix slice `xs[-m:]` on a list. For `m = 0` the slice is
`xs[-0:] = xs[0:]`, i.e. the whole list; for `m > 0` it is the last
`min m (length xs)` elements. -/
def listSliceLast {α : Type} (xs : List α) (m : Nat) : List α :=
  if m = 0 then xs else xs.drop (xs.length - m)

/-- Python `x[-m:]` on a JSON value: lists and strings support slicing,
everything else raises a `TypeError` (`none`). -/
def pySliceLast : Json → Nat → Option Json
  | .arr xs, m => some (.arr (listSliceLast xs m))
  | .str s, m => some (.str (String.mk (listSliceLast s.data m)))
  | _, _ => none

/-- The body of the `for project_path, project_data in projects.items()`
loop (`clean-claude-history.py` lines 48-56) applied to one project
entry: returns the updated entry together with the number of removed
history entries, or `none` where Python would raise. -/
def trimProject (maxEntries : Nat) (projectData : Json) : Option (Json × Nat) :=
  match projectData with
  | .obj fields =>
    let history := (lookupField fields "history").getD (.arr [])
    match pyLen history with
    | none => none
    | some originalCount =>
      if maxEntries < originalCount then
        match pySliceLast history maxEntries with
        | none => none
        | some newHistory =>
            some (.obj (setField fields "history" newHistory),
                  originalCount - maxEntries)
      else
        some (projectData, 0)
  | _ => none

/-- The whole loop over `projects.items()`: updates every entry in order
and accumulates `total_removed`. An exception raised on any entry
(`none`) aborts the whole loop, as in Python. -/
def trimProjects (maxEntries : Nat) :
    List (String × Json) → Option (List (String × Json) × Nat)
  | [] => some ([], 0)
  | (path, pd) :: rest =>
    match trimProject maxEntries pd with
    | none => none
    | some (pd', removed) =>
      match trimProjects maxEntries rest with
      | none => none
      | some (rest', totalRest) => some ((path, pd') :: rest', removed + totalRest)

/-- Lines 44-58 of the script as a pure transformation of the in-memory
config: `projects = config.get('projects', {})` followed by the trimming
loop. The per-entry mutation is in place in Python, so the resulting
document is the original with the `projects` field rebuilt. -/
def cleanConfig (maxEntries : Nat) (config : Json) : Option (Json × Nat) :=
  match config with
  | .obj fields =>
    match lookupField fields "projects" with
    | some (.obj projects) =>
      match trimProjects maxEntries projects with
      | none => none
      | some (projects', total) =>
          some (.obj (setField fields "projects" (.obj projects')), total)
    | some _ => none
    | none => some (config, 0)
  | _ => none

/-- Field access on a JSON value: `some v` when the value is an object
carrying the key, `none` otherwise. Used to observe documents in the
statements below. -/
def objLookup : Json → String → Option Json
  | .obj fields, key => lookupField fields key
  | _, _ => none

/-! ## File-level model

`clean_claude_history` also touches the filesystem: it checks that the
config file exists, optionally copies it to a backup path, parses it,
and conditionally writes the trimmed document back. The slice of the
filesystem it can observe or change is the content of the config path
and of the backup path. JSON parsing and serialisation are library
calls, so the file-level operation is parameterised over them. -/

/-- The contents of the two file paths the script touches: `none` means
the path does not exist. -/
structure FsState where
  config : Option String
  backup : Option String

/-- Observable outcome of one invocation, mirroring the script's print
statements and control flow: `notFound` for a missing config file,
`readError` when the `json.load` try-block fails, `crash` for an
uncaught exception in the trimming loop, `cleaned total` when the
trimmed config was written back, `noCleanup` when `total_removed` was
zero and no write was attempted. -/
inductive TrimOutcome where
  | notFound
  | readError
  | crash
  | cleaned (totalRemoved : Nat)
  | noCleanup

/-- The whole of `clean_claude_history` (lines 15-74): existence check,
optional backup copy (`shutil.copy2`, byte-identical), guarded
`json.load`, the trimming loop, and the conditional write-back of the
serialised document. `parse`/`dump` stand for `json.load`/`json.dump`. -/
def clean_claude_history (parse : String → Option Json) (dump : Json → String)
    (maxEntries : Nat) (backup : Bool) (s : FsState) : FsState × TrimOutcome :=
  match s.config with
  | none => (s, .notFound)
  | some content =>
    let s1 : FsState := if backup then { s with backup := some content } else s
    match parse content with
    | none => (s1, .readError)
    | some config =>
      match cleanConfig maxEntries config with
      | none => (s1, .crash)
      | some (config', total) =>
        if 0 < total then
          ({ s1 with config := some (dump config') }, .cleaned total)
        else
          (s1, .noCleanup)

/-- Byte size of the config file content (UTF-8, as the script reads and
writes it). -/
def fileSizeBytes (content : String) : Nat := content.utf8ByteSize

/-- `check_config_size` (lines 76-89): returns `none` when the config
file is missing, otherwise the size in megabytes (`size / (1024*1024)`;
the Python float division by `2^20` is exact for any realistic size, so
a rational is faithful) together with the `size_mb > 1` flag that the
function returns. It takes no `FsState` to a new `FsState`: it performs
no write. -/
def check_config_size (s : FsState) : Option (ℚ × Bool) :=
  match s.config with
  | none => none
  | some content =>
    let sizeMb : ℚ := (fileSizeBytes content : ℚ) / (1024 * 1024)
    some (sizeMb, decide (1 < sizeMb))

/-! ## Concrete sample documents -/

/-- A project entry with a single history entry. -/
def sampleEntry : Json := Json.obj [("history", Json.arr [Json.str "old"])]

/-- A minimal config: one project whose history holds one entry. -/
def sampleConfig : Json := Json.obj [("projects", Json.obj [("proj", sampleEntry)])]

/-- A serialiser for the single document the cap-0 run writes: running
`cleanConfig 0` on `sampleConfig` returns `sampleConfig` itself, so
mapping it to the fixed file text `"FILE"` below models a faithful JSON
round trip (`sampleParse (sampleDump sampleConfig) = some sampleConfig`)
on every call the run makes. -/
def sampleDump : Json → String := fun _ => "FILE"

/-- The parser matching `sampleDump`: the file text `"FILE"` reads back
as `sampleConfig`. -/
def sampleParse : String → Option Json :=
  fun s => if s = "FILE" then some sampleConfig else none

/-- A project entry with a three-element history and an extra field. -/
def wEntryA : Json :=
  Json.obj [("history", Json.arr [Json.num 1, Json.num 2, Json.num 3]),
            ("flag", Json.bool true)]

/-- `wEntryA` after trimming with cap 2: the last two history entries
are kept, the extra field is untouched. -/
def wEntryAOut : Json :=
  Json.obj [("history", Json.arr [Json.num 2, Json.num 3]),
            ("flag", Json.bool true)]

/-- A project entry without a `history` field. -/
def wEntryB : Json := Json.obj [("note", Json.str "keep")]

/-- The projects mapping of `wConfig`. -/
def wProjects : List (String × Json) := [("a", wEntryA), ("b", wEntryB)]

/-- The projects mapping of `wConfigOut`. -/
def wProjectsOut : List (String × Json) := [("a", wEntryAOut), ("b", wEntryB)]

/-- A config exercising all the per-entry cases: project `a` exceeds a
cap of 2 and carries an extra field, project `b` has no history. -/
def wConfig : Json :=
  Json.obj [("version", Json.num 3), ("projects", Json.obj wProjects)]

/-- The result of trimming `wConfig` with cap 2: project `a` keeps the
last two history entries, everything else is unchanged. -/
def wConfigOut : Json :=
  Json.obj [("version", Json.num 3), ("projects", Json.obj wProjectsOut)]

/-! ## Helper lemmas -/

theorem lookupField_setField_self (fields : List (String × Json)) (key : String)
    (v : Json) : lookupField (setField fields key v) key = some v := by
  induction fields with
  | nil => simp [setField, lookupField]
  | cons p rest ih =>
    obtain ⟨k, w⟩ := p
    by_cases hk : k = key
    · simp [setField, hk, lookupField]
    · simp [setField, hk, lookupField, ih]

theorem lookupField_setField_ne (fields : List (String × Json)) (key k : String)
    (v : Json) (hk : k ≠ key) :
    lookupField (setField fields key v) k = lookupField fields k := by
  induction fields with
  | nil => simp [setField, lookupField, Ne.symm hk]
  | cons p rest ih =>
    obtain ⟨k1, w⟩ := p
    by_cases h1 : k1 = key
    · subst h1
      simp [setField, lookupField, Ne.symm hk]
    · by_cases h2 : k1 = k
      · subst h2
        simp [setField, h1, lookupField]
      · simp [setField, h1, lookupField, h2, ih]

theorem listSliceLast_suffix {α : Type} (xs : List α) (m : Nat) :
    List.IsSuffix (listSliceLast xs m) xs := by
  unfold listSliceLast
  split
  · exact List.suffix_rfl
  · exact List.drop_suffix _ _

/-- Inversion for `trimProject` restricted to keys other than
`"history"`: the loop body never touches them. -/
theorem trimProject_lookup_ne (m : Nat) (pd pd' : Json) (r : Nat) (k : String)
    (h : trimProject m pd = some (pd', r)) (hk : k ≠ "history") :
    objLookup pd' k = objLookup pd k := by
  cases pd with
  | obj fields =>
    simp only [trimProject] at h
    split at h
    next => exact absurd h (by simp)
    next cnt hl =>
      split at h
      next hc =>
        split at h
        next => exact absurd h (by simp)
        next nh hs =>
          rw [Option.some.injEq, Prod.mk.injEq] at h
          obtain ⟨h1, h2⟩ := h
          subst h1
          simpa [objLookup] using lookupField_setField_ne fields "history" k nh hk
      next hc =>
        rw [Option.some.injEq, Prod.mk.injEq] at h
        obtain ⟨h1, h2⟩ := h
        subst h1
        rfl
  | null => simp [trimProject] at h
  | bool b => simp [trimProject] at h
  | num n => simp [trimProject] at h
  | str s => simp [trimProject] at h
  | arr es => simp [trimProject] at h

/-- An entry without a `history` field is returned unchanged with a
removed count of 0 (the default `[]` has length 0, never above the cap). -/
theorem trimProject_no_history (m : Nat) (fields : List (String × Json))
    (h : lookupField fields "history" = none) :
    trimProject m (.obj fields) = some (.obj fields, 0) := by
  simp [trimProject, h, pyLen]

/-- The trimming loop relates input and output entry lists pointwise:
keys are carried over and each output entry is the loop body's image of
the input entry. -/
theorem trimProjects_forall2 (m : Nat) :
    ∀ (l l' : List (String × Json)) (total : Nat),
      trimProjects m l = some (l', total) →
      List.Forall₂ (fun a b => a.1 = b.1 ∧ ∃ r, trimProject m a.2 = some (b.2, r)) l l'
  | [], l', total, h => by
      simp only [trimProjects, Option.some.injEq, Prod.mk.injEq] at h
      rw [← h.1]
      exact List.Forall₂.nil
  | (path, pd) :: rest, l', total, h => by
      simp only [trimProjects] at h
      split at h
      next => exact absurd h (by simp)
      next pd' removed hp =>
        split at h
        next => exact absurd h (by simp)
        next rest' totalRest hr =>
          rw [Option.some.injEq, Prod.mk.injEq] at h
          obtain ⟨h1, h2⟩ := h
          rw [← h1]
          exact List.Forall₂.cons ⟨rfl, removed, hp⟩
            (trimProjects_forall2 m rest rest' totalRest hr)

theorem forall2_fst_map {R : String × Json → String × Json → Prop}
    (hR : ∀ a b, R a b → a.1 = b.1) (l l' : List (String × Json))
    (h : List.Forall₂ R l l') : l'.map Prod.fst = l.map Prod.fst := by
  induction h with
  | nil => rfl
  | cons hab _ ih => simp [ih, hR _ _ hab]

/-- Inversion for `cleanConfig` on an object document: either there is
no `projects` field and the document is returned as-is with total 0, or
the `projects` object went through the trimming loop. -/
theorem cleanConfig_inv (m : Nat) (fields : List (String × Json)) (config' : Json)
    (total : Nat) (h : cleanConfig m (.obj fields) = some (config', total)) :
    (lookupField fields "projects" = none ∧ config' = .obj fields ∧ total = 0) ∨
    (∃ projects projects',
      lookupField fields "projects" = some (.obj projects) ∧
      trimProjects m projects = some (projects', total) ∧
      config' = .obj (setField fields "projects" (.obj projects'))) := by
  simp only [cleanConfig] at h
  split at h
  next projects hl =>
    split at h
    next => exact absurd h (by simp)
    next projects' t ht =>
      rw [Option.some.injEq, Prod.mk.injEq] at h
      obtain ⟨h1, h2⟩ := h
      exact Or.inr ⟨projects, projects', hl, h2 ▸ ht, h1.symm⟩
  next hne hl =>
    exact absurd h (by simp)
  next hl =>
    rw [Option.some.injEq, Prod.mk.injEq] at h
    exact Or.inl ⟨hl, h.1.symm, h.2.symm⟩

/-! ## Claims -/

/-- C1: the claim says that with cap `M = 0` every history array
becomes empty (last `min(L, 0) = 0` elements). The code's slice
`history[-0:]` is `history[0:]`, the whole list: on a config whose one
project has one history entry, `cleanConfig 0` returns the document
UNCHANGED — the entry still holds its full one-element history — while
reporting 1 removed entry. -/
theorem cap_zero_keeps_full_history :
    cleanConfig 0 sampleConfig = some (sampleConfig, 1) ∧
    objLookup sampleEntry "history" = some (Json.arr [Json.str "old"]) :=
  ⟨rfl, rfl⟩

/-- C2: the claim says a second run with the same cap computes zero
removals and performs no write. With cap 0 on a one-entry history, the
first run leaves the document unchanged yet counts 1 removal and writes;
the second run on the resulting file again reports `cleaned 1` — it
removes a nonzero total and writes again, so the operation is not
idempotent at cap 0. -/
theorem second_run_still_removes :
    clean_claude_history sampleParse sampleDump 0 false ⟨some "FILE", none⟩
      = (⟨some "FILE", none⟩, TrimOutcome.cleaned 1) ∧
    clean_claude_history sampleParse sampleDump 0 false
        (clean_claude_history sampleParse sampleDump 0 false ⟨some "FILE", none⟩).1
      = (⟨some "FILE", none⟩, TrimOutcome.cleaned 1) :=
  ⟨rfl, rfl⟩

/-- C3: when backup is requested and the config file exists, the state
after the operation holds a backup file whose content is byte-identical
to the pre-trim original, whatever the parse result, trim result or
write decision was. -/
theorem backup_always_kept (parse : String → Option Json) (dump : Json → String)
    (m : Nat) (s : FsState) (content : String) (hc : s.config = some content) :
    ((clean_claude_history parse dump m true s).1).backup = some content := by
  simp only [clean_claude_history, hc]
  cases hp : parse content with
  | none => simp
  | some config =>
    cases ht : cleanConfig m config with
    | none => simp [ht]
    | some pr =>
      obtain ⟨config', total⟩ := pr
      by_cases h0 : 0 < total
      · simp [ht, h0]
      · simp [ht, h0]

theorem backup_always_kept_witness :
    ((clean_claude_history (fun _ => none) (fun _ => "") 5 true
        ⟨some "data", none⟩).1).backup = some "data" :=
  backup_always_kept (fun _ => none) (fun _ => "") 5 ⟨some "data", none⟩ "data" rfl

/-- C4: if the file exists but parsing fails, the operation aborts
before any mutation: the config content is untouched, the outcome is
the read error, and the backup (when requested) holds the original
content. -/
theorem parse_failure_aborts (parse : String → Option Json) (dump : Json → String)
    (m : Nat) (b : Bool) (s : FsState) (content : String)
    (hc : s.config = some content) (hp : parse content = none) :
    (clean_claude_history parse dump m b s).1.config = some content ∧
    (clean_claude_history parse dump m b s).2 = TrimOutcome.readError ∧
    (b = true → (clean_claude_history parse dump m b s).1.backup = some content) := by
  simp only [clean_claude_history, hc, hp]
  cases b with
  | false => simp [hc]
  | true => simp [hc]

theorem parse_failure_aborts_witness :
    (clean_claude_history (fun _ => none) (fun _ => "") 5 true
        ⟨some "bad json", none⟩).1.config = some "bad json" ∧
    (clean_claude_history (fun _ => none) (fun _ => "") 5 true
        ⟨some "bad json", none⟩).2 = TrimOutcome.readError ∧
    (true = true → (clean_claude_history (fun _ => none) (fun _ => "") 5 true
        ⟨some "bad json", none⟩).1.backup = some "bad json") :=
  parse_failure_aborts (fun _ => none) (fun _ => "") 5 true
    ⟨some "bad json", none⟩ "bad json" rfl rfl

/-- C5: a write-back happens exactly when the removed total is positive
(the outcome is `cleaned total` iff `0 < total`, and then the config
content is the serialised trimmed document); when the total is 0 the
on-disk content stays exactly the original. -/
theorem write_iff_removed (parse : String → Option Json) (dump : Json → String)
    (m : Nat) (b : Bool) (s : FsState) (content : String) (config config' : Json)
    (total : Nat) (hc : s.config = some content) (hp : parse content = some config)
    (ht : cleanConfig m config = some (config', total)) :
    ((clean_claude_history parse dump m b s).2 = TrimOutcome.cleaned total ↔ 0 < total) ∧
    (0 < total → (clean_claude_history parse dump m b s).1.config = some (dump config')) ∧
    (total = 0 → (clean_claude_history parse dump m b s).1.config = some content) := by
  simp only [clean_claude_history, hc, hp, ht]
  by_cases h0 : 0 < total
  · cases b with
    | false => simp [h0, Nat.pos_iff_ne_zero.mp h0]
    | true => simp [h0, Nat.pos_iff_ne_zero.mp h0]
  · cases b with
    | false => simp [h0, hc]
    | true => simp [h0, hc]

theorem write_iff_removed_witness :
    ((clean_claude_history (fun _ => some (Json.obj [])) (fun _ => "out") 3 true
        ⟨some "in", none⟩).2 = TrimOutcome.cleaned 0 ↔ 0 < 0) ∧
    (0 < 0 → (clean_claude_history (fun _ => some (Json.obj [])) (fun _ => "out") 3 true
        ⟨some "in", none⟩).1.config = some ((fun (_ : Json) => "out") (Json.obj []))) ∧
    (0 = 0 → (clean_claude_history (fun _ => some (Json.obj [])) (fun _ => "out") 3 true
        ⟨some "in", none⟩).1.config = some "in") :=
  write_iff_removed (fun _ => some (Json.obj [])) (fun _ => "out") 3 true
    ⟨some "in", none⟩ "in" (Json.obj []) (Json.obj []) 0 rfl rfl rfl

/-- C7: when the config file does not exist the operation returns the
state untouched (in particular no backup is created even when
requested) and reports only that the file was not found. -/
theorem missing_file_noop (parse : String → Option Json) (dump : Json → String)
    (m : Nat) (b : Bool) (s : FsState) (hc : s.config = none) :
    clean_claude_history parse dump m b s = (s, TrimOutcome.notFound) := by
  simp only [clean_claude_history, hc]

theorem missing_file_noop_witness :
    clean_claude_history (fun _ => some sampleConfig) (fun _ => "x") 10 true
        ⟨none, none⟩ = (⟨none, none⟩, TrimOutcome.notFound) :=
  missing_file_noop (fun _ => some sampleConfig) (fun _ => "x") 10 true
    ⟨none, none⟩ rfl

/-- C6: trimming changes nothing but the `history` fields: every
top-level field other than `projects` reads the same after the
transformation, and each project entry in the output agrees with its
input entry on every field other than `history`. -/
theorem trim_only_touches_history (m : Nat) (config config' : Json) (total : Nat)
    (h : cleanConfig m config = some (config', total)) :
    (∀ k, k ≠ "projects" → objLookup config' k = objLookup config k) ∧
    (∀ projects, objLookup config "projects" = some (.obj projects) →
      ∃ projects', objLookup config' "projects" = some (.obj projects') ∧
        List.Forall₂ (fun a b => a.1 = b.1 ∧
          ∀ k, k ≠ "history" → objLookup b.2 k = objLookup a.2 k)
          projects projects') := by
  cases config with
  | obj fields =>
    rcases cleanConfig_inv m fields config' total h with
      ⟨hl, rfl, rfl⟩ | ⟨ps, ps', hl, ht, rfl⟩
    · refine ⟨fun k _ => rfl, fun projects hps => ?_⟩
      simp only [objLookup] at hps
      rw [hl] at hps
      exact absurd hps (by simp)
    · constructor
      · intro k hk
        simpa [objLookup] using lookupField_setField_ne fields "projects" k _ hk
      · intro projects hps
        simp only [objLookup] at hps
        rw [hl, Option.some.injEq] at hps
        injection hps with hps2
        subst hps2
        refine ⟨ps', by simp [objLookup, lookupField_setField_self], ?_⟩
        refine (trimProjects_forall2 m ps ps' total ht).imp ?_
        rintro a b ⟨hkey, r, hr⟩
        exact ⟨hkey, fun k hk => trimProject_lookup_ne m a.2 b.2 r k hr hk⟩
  | null => simp [cleanConfig] at h
  | bool b => simp [cleanConfig] at h
  | num n => simp [cleanConfig] at h
  | str s => simp [cleanConfig] at h
  | arr es => simp [cleanConfig] at h

theorem trim_only_touches_history_witness :
    (∀ k, k ≠ "projects" → objLookup wConfigOut k = objLookup wConfig k) ∧
    (∀ projects, objLookup wConfig "projects" = some (.obj projects) →
      ∃ projects', objLookup wConfigOut "projects" = some (.obj projects') ∧
        List.Forall₂ (fun a b => a.1 = b.1 ∧
          ∀ k, k ≠ "history" → objLookup b.2 k = objLookup a.2 k)
          projects projects') :=
  trim_only_touches_history 2 wConfig wConfigOut 1 rfl

/-- C8: `check_config_size` reads the config file and nothing else: it
returns `none` for a missing file, and otherwise the size converted to
megabytes together with a flag that is true exactly when the byte size
exceeds 1 MB (1048576 bytes). Being a plain function of the state, it
performs no write. -/
theorem check_size_spec (s : FsState) :
    (s.config = none → check_config_size s = none) ∧
    (∀ content, s.config = some content →
      check_config_size s =
        some ((fileSizeBytes content : ℚ) / (1024 * 1024),
              decide (1048576 < fileSizeBytes content))) := by
  constructor
  · intro h
    simp [check_config_size, h]
  · intro content h
    simp only [check_config_size, h]
    have hq : ((1 : ℚ) < (fileSizeBytes content : ℚ) / (1024 * 1024)) ↔
        (1048576 < fileSizeBytes content) := by
      rw [lt_div_iff₀ (by norm_num), one_mul]
      norm_cast
    rw [decide_eq_decide.mpr hq]

theorem check_size_spec_witness :
    (check_config_size ⟨none, none⟩ = none) ∧
    (check_config_size ⟨some "ab", none⟩ =
      some ((fileSizeBytes "ab" : ℚ) / (1024 * 1024),
            decide (1048576 < fileSizeBytes "ab"))) :=
  ⟨(check_size_spec ⟨none, none⟩).1 rfl,
   (check_size_spec ⟨some "ab", none⟩).2 "ab" rfl⟩

/-- C9: trimming preserves the keys of the `projects` mapping exactly
(no entry added or removed, order kept), and an entry without a
`history` field is returned unchanged — no `history` is added to it —
contributing 0 to the removed total. -/
theorem projects_keys_preserved (m : Nat) (config config' : Json) (total : Nat)
    (projects : List (String × Json))
    (h : cleanConfig m config = some (config', total))
    (hp : objLookup config "projects" = some (.obj projects)) :
    ∃ projects', objLookup config' "projects" = some (.obj projects') ∧
      projects'.map Prod.fst = projects.map Prod.fst ∧
      List.Forall₂ (fun a b => ∀ fs, a.2 = Json.obj fs →
          lookupField fs "history" = none →
          b = a ∧ trimProject m a.2 = some (a.2, 0)) projects projects' := by
  cases config with
  | obj fields =>
    simp only [objLookup] at hp
    rcases cleanConfig_inv m fields config' total h with
      ⟨hl, _, _⟩ | ⟨ps, ps', hl, ht, rfl⟩
    · rw [hl] at hp
      exact absurd hp (by simp)
    · rw [hl, Option.some.injEq] at hp
      injection hp with hp2
      subst hp2
      have hf := trimProjects_forall2 m ps ps' total ht
      refine ⟨ps', by simp [objLookup, lookupField_setField_self],
        forall2_fst_map (fun a b hab => hab.1) ps ps' hf, ?_⟩
      refine hf.imp ?_
      rintro a b ⟨hkey, r, hr⟩ fs hfs hno
      rw [hfs] at hr
      have hu := (trimProject_no_history m fs hno).symm.trans hr
      rw [Option.some.injEq, Prod.mk.injEq] at hu
      constructor
      · exact Prod.ext_iff.mpr ⟨hkey.symm, hu.1 ▸ hfs.symm⟩
      · rw [hfs]
        exact trimProject_no_history m fs hno
  | null => simp [cleanConfig] at h
  | bool b => simp [cleanConfig] at h
  | num n => simp [cleanConfig] at h
  | str s => simp [cleanConfig] at h
  | arr es => simp [cleanConfig] at h

theorem projects_keys_preserved_witness :
    ∃ projects', objLookup wConfigOut "projects" = some (.obj projects') ∧
      projects'.map Prod.fst = wProjects.map Prod.fst ∧
      List.Forall₂ (fun a b => ∀ fs, a.2 = Json.obj fs →
          lookupField fs "history" = none →
          b = a ∧ trimProject 2 a.2 = some (a.2, 0)) wProjects projects' :=
  projects_keys_preserved 2 wConfig wConfigOut 1 wProjects rfl rfl

/-- C10: the trimmed history is always a contiguous suffix of the
original (for cap 0 the code keeps the whole list, which is still a
suffix), its length never exceeds the original length, the removed
count is `L - M` when `L > M` and 0 otherwise. -/
theorem trimmed_history_is_suffix (m : Nat) (fields : List (String × Json))
    (hs : List Json) (pd' : Json) (r : Nat)
    (hh : lookupField fields "history" = some (.arr hs))
    (h : trimProject m (.obj fields) = some (pd', r)) :
    ∃ hs', objLookup pd' "history" = some (.arr hs') ∧
      List.IsSuffix hs' hs ∧ hs'.length ≤ hs.length ∧
      (m < hs.length → r = hs.length - m) ∧ (hs.length ≤ m → r = 0) := by
  simp only [trimProject, hh, Option.getD_some, pyLen] at h
  by_cases hc : m < hs.length
  · rw [if_pos hc] at h
    simp only [pySliceLast] at h
    rw [Option.some.injEq, Prod.mk.injEq] at h
    obtain ⟨h1, h2⟩ := h
    refine ⟨listSliceLast hs m, ?_, listSliceLast_suffix hs m,
      (listSliceLast_suffix hs m).length_le, fun _ => h2.symm,
      fun hle => absurd hc (not_lt.mpr hle)⟩
    rw [← h1]
    simpa [objLookup] using lookupField_setField_self fields "history" _
  · rw [if_neg hc] at h
    rw [Option.some.injEq, Prod.mk.injEq] at h
    obtain ⟨h1, h2⟩ := h
    refine ⟨hs, ?_, List.suffix_rfl, le_refl _,
      fun hlt => absurd hlt hc, fun _ => h2.symm⟩
    rw [← h1]
    simpa [objLookup] using hh

theorem trimmed_history_is_suffix_witness :
    ∃ hs', objLookup wEntryAOut "history" = some (.arr hs') ∧
      List.IsSuffix hs' [Json.num 1, Json.num 2, Json.num 3] ∧
      hs'.length ≤ ([Json.num 1, Json.num 2, Json.num 3] : List Json).length ∧
      (2 < ([Json.num 1, Json.num 2, Json.num 3] : List Json).length →
        1 = ([Json.num 1, Json.num 2, Json.num 3] : List Json).length - 2) ∧
      (([Json.num 1, Json.num 2, Json.num 3] : List Json).length ≤ 2 → 1 = 0) :=
  trimmed_history_is_suffix 2
    [("history", Json.arr [Json.num 1, Json.num 2, Json.num 3]),
     ("flag", Json.bool true)]
    [Json.num 1, Json.num 2, Json.num 3] wEntryAOut 1 rfl rfl

end CleanClaudeHistory
